import Mathlib

/-!
Verification of the inventory ledger module (`inventory_system_cleaned.py`).

The Python module keeps an in-memory inventory as a `dict` from item name
(string) to quantity (int) and offers `add_item`, `remove_item`, `get_qty`,
`check_low_items`, and JSON persistence through `load_data` / `save_data`.

Modelling choices:
* A Python dict is embedded as an insertion-ordered association list
  `List (String × Int)`.  `dictGet` / `dictSet` / `dictDel` mirror
  `d.get`, `d[k] = v` (which updates in place, preserving the key's
  position) and `del d[k]`.  The representation invariant `WF` (no
  duplicate keys) corresponds to the fact that a Python dict cannot hold
  the same key twice.
* Python argument values reaching the validation code of `add_item` and
  `remove_item` are embedded as `PyVal`: a string, an integer (Python
  `bool` is a subclass of `int`, so booleans fall into this case), or any
  other value (`None`, floats, lists, ...), which is all the
  `isinstance` checks can distinguish.
* Exceptions are embedded as `Except`: `add_item` returns the raised
  error (with the ledger unchanged, since the `raise` statements run
  before the mutation) or `.ok`.  `remove_item`, `get_qty` and
  `check_low_items` are total functions, mirroring that they never raise.
* The JSON file is embedded at the document level: `FileState` records
  whether the path is absent, holds text that is not valid JSON, fails
  with an I/O error, or holds a decoded JSON document (`Json`).
  `json.dump` / `json.load` from the Python standard library are modelled
  as storing and retrieving the document tree.  Log side effects
  (`logging.info` / `logging.warning` / `logging.error` and the `logs`
  accumulator) are not modelled; no claim refers to them.
-/

/-- The inventory mapping: an insertion-ordered association list standing
for the Python dict from item name to quantity. -/
abbrev Ledger := List (String × Int)

/-- `d.get k` on a Python dict: the value stored at `k`, if present. -/
def dictGet (d : Ledger) (k : String) : Option Int :=
  match d with
  | [] => none
  | (k', v) :: rest => if k' = k then some v else dictGet rest k

/-- `d[k] = v` on a Python dict: update the entry in place (keeping its
position) when the key is present, otherwise append it at the end. -/
def dictSet (d : Ledger) (k : String) (v : Int) : Ledger :=
  match d with
  | [] => [(k, v)]
  | (k', v') :: rest =>
      if k' = k then (k', v) :: rest else (k', v') :: dictSet rest k v

/-- `del d[k]` on a Python dict: drop the entry with key `k`. -/
def dictDel (d : Ledger) (k : String) : Ledger :=
  match d with
  | [] => []
  | (k', v') :: rest => if k' = k then rest else (k', v') :: dictDel rest k

/-- Representation invariant of the embedding: an association list stands
for a Python dict only when its keys are pairwise distinct. -/
def WF (d : Ledger) : Prop := (d.map Prod.fst).Nodup

/-- A Python value as seen by the `isinstance` validation in `add_item`
and `remove_item`: a string, an integer (including booleans, which are
integers in Python), or anything else. -/
inductive PyVal where
  | str (s : String)
  | int (n : Int)
  | other
  deriving DecidableEq

/-- Whether a `PyVal` passes `isinstance(item, str) and item`:
a non-empty string. -/
def PyVal.isValidItem : PyVal → Bool
  | .str s => !s.isEmpty
  | _ => false

/-- Whether a `PyVal` passes `isinstance(qty, int)`. -/
def PyVal.isInt : PyVal → Bool
  | .int _ => true
  | _ => false

/-- The integer carried by a `PyVal.int`, defaulting to `0` otherwise. -/
def PyVal.intVal : PyVal → Int
  | .int n => n
  | _ => 0

/-- The three `ValueError`s `add_item` can raise, in the order the
source checks them: invalid item name, non-integer quantity, negative
quantity. -/
inductive AddError where
  | itemInvalid
  | qtyNotInt
  | qtyNegative
  deriving DecidableEq

/-- `add_item(stock_data, item, qty)`: validate `item` (a non-empty
string), then the type of `qty` (an integer), then its sign (`qty >= 0`),
raising on the first failing check with the dict untouched; on success
run `stock_data[item] = stock_data.get(item, 0) + qty`. -/
def add_item (stock_data : Ledger) (item qty : PyVal) :
    Except AddError Unit × Ledger :=
  match item with
  | .str s =>
      if s.isEmpty then (.error .itemInvalid, stock_data)
      else
        match qty with
        | .int n =>
            if n < 0 then (.error .qtyNegative, stock_data)
            else (.ok (), dictSet stock_data s ((dictGet stock_data s).getD 0 + n))
        | _ => (.error .qtyNotInt, stock_data)
  | _ => (.error .itemInvalid, stock_data)

/-- `remove_item(stock_data, item, qty)`: a non-integer or negative `qty`
is logged and ignored; an absent `item` raises `KeyError`, caught and
logged; otherwise the key is deleted when `current - qty <= 0` and
decremented in place (`stock_data[item] -= qty`) otherwise.  The function
never raises. -/
def remove_item (stock_data : Ledger) (item : String) (qty : PyVal) : Ledger :=
  match qty with
  | .int n =>
      if n < 0 then stock_data
      else
        match dictGet stock_data item with
        | none => stock_data
        | some current =>
            if current - n ≤ 0 then dictDel stock_data item
            else dictSet stock_data item (current - n)
  | _ => stock_data

/-- `get_qty(stock_data, item)`: `stock_data.get(item, 0)`. -/
def get_qty (stock_data : Ledger) (item : String) : Int :=
  (dictGet stock_data item).getD 0

/-- `check_low_items(stock_data, threshold=5)`: the names of the items
whose quantity is strictly below `threshold`, in the dict's insertion
order. -/
def check_low_items (stock_data : Ledger) (threshold : Int := 5) : List String :=
  (stock_data.filter (fun p => p.2 < threshold)).map Prod.fst

/-- A JSON document, as decoded by `json.load`. -/
inductive Json where
  | null
  | bool (b : Bool)
  | num (n : Int)
  | str (s : String)
  | arr (l : List Json)
  | obj (l : List (String × Json))

/-- The state of the file at the inventory path: missing, holding text
that is not valid JSON, failing with an I/O error on access, or holding
a valid JSON document. -/
inductive FileState where
  | absent
  | invalid
  | ioError
  | stored (j : Json)

/-- The JSON document `json.dump` writes for a string-to-int dict. -/
def ledgerJson (d : Ledger) : Json :=
  .obj (d.map (fun p => (p.1, Json.num p.2)))

/-- `load_data(file_path)`: return the decoded JSON document; on
`FileNotFoundError`, `json.JSONDecodeError` or `IOError` log and return
the empty dict `{}`. -/
def load_data (fs : FileState) : Json :=
  match fs with
  | .stored j => j
  | _ => .obj []

/-- `save_data(stock_data, file_path)` on the success path: overwrite the
file with the JSON serialization of the dict. -/
def save_data (stock_data : Ledger) : FileState :=
  .stored (ledgerJson stock_data)

/-- Read an integer back out of a JSON value, if it is one. -/
def jsonInt : Json → Option Int
  | .num n => some n
  | _ => none

/-- Read the entries of a JSON object back as a string-to-int mapping,
provided every value is an integer. -/
def jsonEntries : List (String × Json) → Option Ledger
  | [] => some []
  | (k, j) :: rest =>
      match jsonInt j, jsonEntries rest with
      | some n, some d => some ((k, n) :: d)
      | _, _ => none

/-- Read a string-to-int mapping back out of a JSON document, if it is a
JSON object all of whose values are integers. -/
def jsonLedger : Json → Option Ledger
  | .obj l => jsonEntries l
  | _ => none

/-- The data invariant from the spec: every key present in the mapping
has a strictly positive value. -/
def InvPos (d : Ledger) : Prop := ∀ p ∈ d, 0 < p.2

instance (d : Ledger) : Decidable (InvPos d) :=
  inferInstanceAs (Decidable (∀ p ∈ d, 0 < p.2))

instance (d : Ledger) : Decidable (WF d) :=
  inferInstanceAs (Decidable (d.map Prod.fst).Nodup)

/-! ### Basic lemmas about the dict operations -/

theorem dictGet_dictSet_self (d : Ledger) (k : String) (v : Int) :
    dictGet (dictSet d k v) k = some v := by
  induction d with
  | nil => simp [dictSet, dictGet]
  | cons hd rest ih =>
      obtain ⟨a, b⟩ := hd
      by_cases h : a = k
      · simp [dictSet, dictGet, h]
      · simp [dictSet, dictGet, h, ih]

theorem dictGet_dictSet_ne (d : Ledger) (k k' : String) (v : Int)
    (h : k' ≠ k) : dictGet (dictSet d k v) k' = dictGet d k' := by
  induction d with
  | nil => simp [dictSet, dictGet, Ne.symm h]
  | cons hd rest ih =>
      obtain ⟨a, b⟩ := hd
      by_cases ha : a = k
      · subst ha
        simp [dictSet, dictGet, Ne.symm h]
      · simp [dictSet, dictGet, ha, ih]

theorem dictGet_dictDel_ne (d : Ledger) (k k' : String)
    (h : k' ≠ k) : dictGet (dictDel d k) k' = dictGet d k' := by
  induction d with
  | nil => simp [dictDel, dictGet]
  | cons hd rest ih =>
      obtain ⟨a, b⟩ := hd
      by_cases ha : a = k
      · subst ha
        simp [dictDel, dictGet, Ne.symm h]
      · simp [dictDel, dictGet, ha, ih]

theorem dictGet_mem (d : Ledger) (k : String) (v : Int)
    (h : dictGet d k = some v) : (k, v) ∈ d := by
  induction d with
  | nil => simp [dictGet] at h
  | cons hd rest ih =>
      obtain ⟨a, b⟩ := hd
      by_cases ha : a = k
      · subst ha
        simp only [dictGet, if_pos rfl] at h
        cases h
        exact List.mem_cons_self _ _
      · simp only [dictGet, ha, if_false] at h
        exact List.mem_cons_of_mem _ (ih h)

theorem dictGet_eq_none_iff (d : Ledger) (k : String) :
    dictGet d k = none ↔ ∀ v, (k, v) ∉ d := by
  induction d with
  | nil => simp [dictGet]
  | cons hd rest ih =>
      obtain ⟨a, b⟩ := hd
      by_cases ha : a = k
      · subst ha
        simp only [dictGet, if_pos rfl]
        constructor
        · intro h
          exact absurd h (by simp)
        · intro h
          exact absurd (List.mem_cons_self (a, b) rest) (h b)
      · simp only [dictGet, ha, if_false, ih]
        constructor
        · intro h v hv
          rcases List.mem_cons.mp hv with h1 | h2
          · exact ha (congrArg Prod.fst h1.symm)
          · exact h v h2
        · intro h v hv
          exact h v (List.mem_cons_of_mem _ hv)

theorem mem_dictSet (d : Ledger) (k : String) (v : Int) (p : String × Int)
    (h : p ∈ dictSet d k v) : p = (k, v) ∨ p ∈ d := by
  induction d with
  | nil => simpa [dictSet] using h
  | cons hd rest ih =>
      obtain ⟨a, b⟩ := hd
      by_cases ha : a = k
      · subst ha
        simp only [dictSet, if_pos rfl] at h
        rcases List.mem_cons.mp h with h1 | h2
        · exact .inl h1
        · exact .inr (List.mem_cons_of_mem _ h2)
      · simp only [dictSet, ha, if_false] at h
        rcases List.mem_cons.mp h with h1 | h2
        · exact .inr (h1 ▸ List.mem_cons_self _ _)
        · rcases ih h2 with h3 | h4
          · exact .inl h3
          · exact .inr (List.mem_cons_of_mem _ h4)

theorem mem_dictDel (d : Ledger) (k : String) (p : String × Int)
    (h : p ∈ dictDel d k) : p ∈ d := by
  induction d with
  | nil => simp [dictDel] at h
  | cons hd rest ih =>
      obtain ⟨a, b⟩ := hd
      by_cases ha : a = k
      · simp only [dictDel, ha, if_pos rfl] at h
        exact List.mem_cons_of_mem _ h
      · simp only [dictDel, ha, if_false] at h
        rcases List.mem_cons.mp h with h1 | h2
        · exact h1 ▸ List.mem_cons_self _ _
        · exact List.mem_cons_of_mem _ (ih h2)

theorem dictGet_dictDel_self (d : Ledger) (k : String) (hwf : WF d) :
    dictGet (dictDel d k) k = none := by
  induction d with
  | nil => simp [dictDel, dictGet]
  | cons hd rest ih =>
      obtain ⟨a, b⟩ := hd
      have hwf' : WF rest := (List.nodup_cons.mp hwf).2
      have hnotin : a ∉ rest.map Prod.fst := (List.nodup_cons.mp hwf).1
      by_cases ha : a = k
      · subst ha
        simp only [dictDel, if_pos rfl]
        rw [dictGet_eq_none_iff]
        intro v hv
        exact hnotin (List.mem_map_of_mem Prod.fst hv)
      · simp [dictDel, dictGet, ha, ih hwf']

theorem dictGet_of_mem (d : Ledger) (k : String) (v : Int) (hwf : WF d)
    (h : (k, v) ∈ d) : dictGet d k = some v := by
  induction d with
  | nil => simp at h
  | cons hd rest ih =>
      obtain ⟨a, b⟩ := hd
      rcases List.mem_cons.mp h with h1 | h2
      · cases h1
        simp [dictGet]
      · have hnd : a ∉ rest.map Prod.fst := (List.nodup_cons.mp hwf).1
        have ha : a ≠ k := by
          intro hak
          subst hak
          exact hnd (List.mem_map_of_mem Prod.fst h2)
        simp [dictGet, ha, ih (List.nodup_cons.mp hwf).2 h2]

/-! ### The claims -/

/-- C1 fails as stated: starting from the empty ledger (which satisfies
the invariant), `add_item` with the valid arguments `item = "a"`,
`qty = 0` completes successfully and stores the key `"a"` with value
zero, which is not strictly positive. -/
theorem add_item_zero_qty_breaks_invariant :
    InvPos ([] : Ledger) ∧
    (add_item [] (.str "a") (.int 0)).1 = .ok () ∧
    ¬ InvPos (add_item [] (.str "a") (.int 0)).2 :=
  ⟨by decide, rfl, by decide⟩

/-- C1 (amended): on a ledger satisfying the invariant, `remove_item`
with any arguments preserves it, and a completed `add_item` preserves it
whenever the added quantity is positive or the item is already present;
the only escape is `add_item` with `qty = 0` on an absent item, which
stores that key with value zero. -/
theorem mutation_preserves_invariant (d : Ledger) (hinv : InvPos d) :
    (∀ (item : String) (qty : PyVal), InvPos (remove_item d item qty)) ∧
    (∀ (item : String) (qty : Int), 0 < qty →
      InvPos (add_item d (.str item) (.int qty)).2) ∧
    (∀ (item : String) (qty c : Int), dictGet d item = some c →
      InvPos (add_item d (.str item) (.int qty)).2) := by
  refine ⟨?_, ?_, ?_⟩
  · intro item qty
    cases qty with
    | int n =>
        by_cases hn : n < 0
        · simpa [remove_item, hn] using hinv
        · cases hget : dictGet d item with
          | none => simpa [remove_item, hn, hget] using hinv
          | some c =>
              by_cases hc : c - n ≤ 0
              · simp only [remove_item, hn, if_false, hget, hc, if_pos]
                intro p hp
                exact hinv p (mem_dictDel d item p hp)
              · simp only [remove_item, hn, if_false, hget, hc, if_neg,
                  not_false_iff]
                intro p hp
                rcases mem_dictSet d item (c - n) p hp with h1 | h2
                · rw [h1]
                  simpa using lt_of_not_ge (fun hcn => hc (by omega))
                · exact hinv p h2
    | str s => exact hinv
    | other => exact hinv
  · intro item qty hq
    by_cases hs : item.isEmpty
    · simpa [add_item, hs] using hinv
    · have hn : ¬ qty < 0 := by omega
      simp only [add_item, hs, if_false, hn]
      intro p hp
      rcases mem_dictSet d item ((dictGet d item).getD 0 + qty) p hp with h1 | h2
      · rw [h1]
        cases hget : dictGet d item with
        | none => simpa [hget] using hq
        | some c =>
            have hc : 0 < c := hinv (item, c) (dictGet_mem d item c hget)
            simp only [hget, Option.getD_some]
            omega
      · exact hinv p h2
  · intro item qty c hget
    by_cases hs : item.isEmpty
    · simpa [add_item, hs] using hinv
    · by_cases hn : qty < 0
      · simpa [add_item, hs, hn] using hinv
      · simp only [add_item, hs, if_false, hn]
        intro p hp
        rcases mem_dictSet d item ((dictGet d item).getD 0 + qty) p hp with h1 | h2
        · rw [h1]
          have hc : 0 < c := hinv (item, c) (dictGet_mem d item c hget)
          simp only [hget, Option.getD_some]
          omega
        · exact hinv p h2

/-- Witness for `mutation_preserves_invariant` at a concrete ledger. -/
theorem mutation_preserves_invariant_witness :
    InvPos ([("apple", 3)] : Ledger) ∧
    InvPos (remove_item [("apple", 3)] "apple" (.int 1)) :=
  ⟨by decide, (mutation_preserves_invariant [("apple", 3)] (by decide)).1
    "apple" (.int 1)⟩

/-- C2: `add_item` raises `ValueError` exactly when the item is empty or
not a string, or the quantity is not an integer, or the quantity is
negative; the checks run in source order, so the first failing check
determines the reported error, and whenever it raises the mapping is
unchanged. -/
theorem add_item_error_spec (d : Ledger) (item qty : PyVal) :
    ((add_item d item qty).1 = .ok () ↔
      (item.isValidItem = true ∧ qty.isInt = true ∧ 0 ≤ qty.intVal)) ∧
    ((add_item d item qty).1 = .error .itemInvalid ↔
      item.isValidItem = false) ∧
    ((add_item d item qty).1 = .error .qtyNotInt ↔
      (item.isValidItem = true ∧ qty.isInt = false)) ∧
    ((add_item d item qty).1 = .error .qtyNegative ↔
      (item.isValidItem = true ∧ qty.isInt = true ∧ qty.intVal < 0)) ∧
    (∀ e : AddError, (add_item d item qty).1 = .error e →
      (add_item d item qty).2 = d) := by
  cases item with
  | str s =>
      by_cases hs : s.isEmpty
      · cases qty <;>
          simp [add_item, PyVal.isValidItem, PyVal.isInt, PyVal.intVal, hs]
      · cases qty with
        | int n =>
            by_cases hn : n < 0
            · simp [add_item, PyVal.isValidItem, PyVal.isInt, PyVal.intVal,
                hs, hn]
            · simp [add_item, PyVal.isValidItem, PyVal.isInt, PyVal.intVal,
                hs, hn]
              omega
        | str t =>
            simp [add_item, PyVal.isValidItem, PyVal.isInt, PyVal.intVal, hs]
        | other =>
            simp [add_item, PyVal.isValidItem, PyVal.isInt, PyVal.intVal, hs]
  | int n =>
      cases qty <;>
        simp [add_item, PyVal.isValidItem, PyVal.isInt, PyVal.intVal]
  | other =>
      cases qty <;>
        simp [add_item, PyVal.isValidItem, PyVal.isInt, PyVal.intVal]

/-- Witness for `add_item_error_spec`: a valid item with a string
quantity reports the non-integer-quantity error and leaves the dict
unchanged. -/
theorem add_item_error_spec_witness :
    (add_item [("apple", 7)] (.str "apple") (.str "ten")).1 =
      .error .qtyNotInt ∧
    (add_item [("apple", 7)] (.str "apple") (.str "ten")).2 =
      [("apple", 7)] := by
  have h := add_item_error_spec [("apple", 7)] (.str "apple") (.str "ten")
  have he := h.2.2.1.mpr (by decide)
  exact ⟨he, h.2.2.2.2 .qtyNotInt he⟩

/-- C3: for a non-empty item name and an integer `qty ≥ 0`, `add_item`
succeeds and `get_qty` of that item afterwards is exactly `qty` more
than before the call (the key is created if absent). -/
theorem add_item_get_qty_delta (d : Ledger) (item : String) (qty : Int)
    (hitem : item ≠ "") (hqty : 0 ≤ qty) :
    (add_item d (.str item) (.int qty)).1 = .ok () ∧
    get_qty (add_item d (.str item) (.int qty)).2 item =
      get_qty d item + qty := by
  have hs : item.isEmpty = false := by
    cases hh : item.isEmpty
    · rfl
    · exact absurd ((String.isEmpty_iff item).mp hh) hitem
  have hn : ¬ qty < 0 := not_lt.mpr hqty
  constructor
  · simp [add_item, hs, hn]
  · simp [add_item, hs, hn, get_qty, dictGet_dictSet_self]

/-- Witness for `add_item_get_qty_delta` at a concrete ledger. -/
theorem add_item_get_qty_delta_witness :
    (add_item [("apple", 7)] (.str "apple") (.int 10)).1 = .ok () ∧
    get_qty (add_item [("apple", 7)] (.str "apple") (.int 10)).2 "apple" =
      get_qty [("apple", 7)] "apple" + 10 :=
  add_item_get_qty_delta [("apple", 7)] "apple" 10 (by decide) (by decide)

/-- C4: when `item` is present with quantity `c` and `qty ≥ 0` is an
integer, `remove_item` deletes the key entirely when `c - qty ≤ 0` (and
`get_qty` afterwards returns 0), and otherwise stores `c - qty` in
place. -/
theorem remove_item_present_spec (d : Ledger) (item : String) (qty c : Int)
    (hwf : WF d) (hc : dictGet d item = some c) (hqty : 0 ≤ qty) :
    (c - qty ≤ 0 →
      remove_item d item (.int qty) = dictDel d item ∧
      get_qty (remove_item d item (.int qty)) item = 0) ∧
    (0 < c - qty →
      remove_item d item (.int qty) = dictSet d item (c - qty) ∧
      get_qty (remove_item d item (.int qty)) item = c - qty) := by
  have hn : ¬ qty < 0 := not_lt.mpr hqty
  constructor
  · intro hle
    constructor
    · simp [remove_item, hn, hc, hle]
    · simp [remove_item, hn, hc, hle, get_qty, dictGet_dictDel_self d item hwf]
  · intro hgt
    have hle : ¬ c - qty ≤ 0 := not_le.mpr hgt
    constructor
    · simp [remove_item, hn, hc, hle]
    · simp [remove_item, hn, hc, hle, get_qty, dictGet_dictSet_self]

/-- Witness for `remove_item_present_spec`: removing 25 of 20 bananas
deletes the key and the quantity reads back as 0. -/
theorem remove_item_present_spec_witness :
    remove_item [("banana", 20)] "banana" (.int 25) =
      dictDel [("banana", 20)] "banana" ∧
    get_qty (remove_item [("banana", 20)] "banana" (.int 25)) "banana" = 0 :=
  (remove_item_present_spec [("banana", 20)] "banana" 25 20 (by decide)
    (by decide) (by decide)).1 (by decide)

/-- C5: `remove_item` never raises (it is a total function in this
embedding), and it is a no-op leaving the mapping unchanged whenever the
quantity is not an integer, the quantity is negative, or the item is
absent from the mapping. -/
theorem remove_item_noop_spec (d : Ledger) (item : String) (qty : PyVal)
    (h : qty.isInt = false ∨ qty.intVal < 0 ∨ dictGet d item = none) :
    remove_item d item qty = d := by
  cases qty with
  | int n =>
      rcases h with h1 | h2 | h3
      · simp [PyVal.isInt] at h1
      · have hn : n < 0 := h2
        simp [remove_item, hn]
      · by_cases hn : n < 0
        · simp [remove_item, hn]
        · simp [remove_item, hn, h3]
  | str s => rfl
  | other => rfl

/-- Witness for `remove_item_noop_spec`: removing an absent item leaves
the mapping unchanged. -/
theorem remove_item_noop_spec_witness :
    remove_item [("apple", 7)] "orange" (.int 1) = [("apple", 7)] :=
  remove_item_noop_spec [("apple", 7)] "orange" (.int 1)
    (.inr (.inr (by decide)))

/-- C6: saving a mapping of non-negative integer quantities and loading
from the same path reproduces an equal mapping (same keys, same integer
values, in the same order). -/
theorem save_load_roundtrip (d : Ledger) (h : ∀ p ∈ d, 0 ≤ p.2) :
    jsonLedger (load_data (save_data d)) = some d := by
  simp only [save_data, load_data, ledgerJson, jsonLedger]
  induction d with
  | nil => rfl
  | cons hd rest ih =>
      obtain ⟨a, b⟩ := hd
      have ih' := ih (fun p hp => h p (List.mem_cons_of_mem _ hp))
      simp only [List.map_cons, jsonEntries, jsonInt, ih']

/-- Witness for `save_load_roundtrip` at a concrete mapping. -/
theorem save_load_roundtrip_witness :
    jsonLedger (load_data (save_data [("apple", 7), ("banana", 18)])) =
      some [("apple", 7), ("banana", 18)] :=
  save_load_roundtrip [("apple", 7), ("banana", 18)] (by decide)

/-- C7: `load_data` recovers every failure locally: a missing file,
invalid JSON content, and any other I/O error each yield the empty dict
`{}`, and no exception escapes (the embedding is a total function). -/
theorem load_data_failure_spec :
    load_data .absent = .obj [] ∧
    load_data .invalid = .obj [] ∧
    load_data .ioError = .obj [] :=
  ⟨rfl, rfl, rfl⟩

/-- C8: `get_qty` is a pure lookup (it does not touch the mapping):
on a well-formed dict it returns the stored value of a present key and 0
for an absent key. -/
theorem get_qty_lookup_spec (d : Ledger) (item : String) (hwf : WF d) :
    (∀ v, (item, v) ∈ d → get_qty d item = v) ∧
    ((∀ v, (item, v) ∉ d) → get_qty d item = 0) := by
  constructor
  · intro v hv
    simp [get_qty, dictGet_of_mem d item v hwf hv]
  · intro h
    simp [get_qty, (dictGet_eq_none_iff d item).mpr h]

/-- Witness for `get_qty_lookup_spec` at a concrete ledger. -/
theorem get_qty_lookup_spec_witness :
    get_qty [("apple", 7), ("banana", 2)] "banana" = 2 :=
  (get_qty_lookup_spec [("apple", 7), ("banana", 2)] "banana"
    (by decide)).1 2 (by decide)

/-- C9: `check_low_items` returns exactly the item names whose stored
quantity is strictly below the threshold, in the insertion order of the
mapping (its result is a sublist of the key sequence); the empty mapping
yields the empty result, and the default threshold is 5. -/
theorem check_low_items_spec (d : Ledger) (t : Int) :
    (∀ item, item ∈ check_low_items d t ↔ ∃ v, (item, v) ∈ d ∧ v < t) ∧
    (check_low_items d t).Sublist (d.map Prod.fst) ∧
    check_low_items ([] : Ledger) t = [] ∧
    check_low_items d = check_low_items d 5 := by
  refine ⟨?_, ?_, rfl, rfl⟩
  · intro item
    simp only [check_low_items, List.mem_map, List.mem_filter]
    constructor
    · rintro ⟨⟨a, b⟩, ⟨hmem, hlt⟩, ha⟩
      subst ha
      exact ⟨b, hmem, by simpa using hlt⟩
    · rintro ⟨v, hmem, hlt⟩
      exact ⟨(item, v), ⟨hmem, by simpa using hlt⟩, rfl⟩
  · exact List.Sublist.map Prod.fst (List.filter_sublist d)

/-- Witness for `check_low_items_spec`: with threshold 5 and mapping
`{apple: 7, banana: 2}`, `"banana"` is reported. -/
theorem check_low_items_spec_witness :
    "banana" ∈ check_low_items [("apple", 7), ("banana", 2)] 5 :=
  ((check_low_items_spec [("apple", 7), ("banana", 2)] 5).1 "banana").mpr
    ⟨2, by decide, by decide⟩

/-- C10: frame property: `add_item` and `remove_item` leave the presence
and quantity of every key other than the named item unchanged, and an
`add_item` call whose item argument fails validation leaves the whole
mapping unchanged. -/
theorem mutation_frame_spec (d : Ledger) (item : String) (qty : PyVal)
    (k : String) (hk : k ≠ item) :
    dictGet (add_item d (.str item) qty).2 k = dictGet d k ∧
    dictGet (remove_item d item qty) k = dictGet d k ∧
    (∀ i : PyVal, i.isValidItem = false → (add_item d i qty).2 = d) := by
  refine ⟨?_, ?_, ?_⟩
  · cases qty with
    | int n =>
        by_cases hs : item.isEmpty
        · simp [add_item, hs]
        · by_cases hn : n < 0
          · simp [add_item, hs, hn]
          · simp [add_item, hs, hn, dictGet_dictSet_ne d item k _ hk]
    | str s => by_cases hs : item.isEmpty <;> simp [add_item, hs]
    | other => by_cases hs : item.isEmpty <;> simp [add_item, hs]
  · cases qty with
    | int n =>
        by_cases hn : n < 0
        · simp [remove_item, hn]
        · cases hget : dictGet d item with
          | none => simp [remove_item, hn, hget]
          | some c =>
              by_cases hc : c - n ≤ 0
              · simp [remove_item, hn, hget, hc,
                  dictGet_dictDel_ne d item k hk]
              · simp [remove_item, hn, hget, hc,
                  dictGet_dictSet_ne d item k _ hk]
    | str s => rfl
    | other => rfl
  · intro i hi
    cases i with
    | str s =>
        have hs : s.isEmpty = true := by
          simpa [PyVal.isValidItem] using hi
        cases qty <;> simp [add_item, hs]
    | int n => cases qty <;> rfl
    | other => cases qty <;> rfl

/-- Witness for `mutation_frame_spec`: adding bananas does not change
the stored quantity of apples. -/
theorem mutation_frame_spec_witness :
    dictGet (add_item [("apple", 7)] (.str "banana") (.int 3)).2 "apple" =
      dictGet [("apple", 7)] "apple" :=
  (mutation_frame_spec [("apple", 7)] "banana" (.int 3) "apple"
    (by decide)).1
